import Mathlib

/-!
# Bounded blocking FIFO queue — shallow embedding

Shallow embedding of `src/lab.c`, a fixed-capacity circular-buffer FIFO
queue with a shutdown flag.  Every field access in the C code happens
under one mutex, so the queue behaves as a sequential state machine:
each completed operation is an atomic state transition.  A call that is
blocked in a condition wait (`enqueue` on a full, non-shut-down queue;
`dequeue` on an empty, non-shut-down queue) has not completed and is
modelled by the corresponding transition being disabled; the guards of
the `RunTo` relation below are exactly the negations of the C wait-loop
conditions, i.e. the condition under which the wait loop exits.

C `void *` item pointers are modelled by `Ptr := Option Nat`: `none` is
the C `NULL` pointer, `some a` a non-null pointer.  C `int` fields are
modelled at the value ranges the code maintains: `capacity`, `size` and
`front` as `Nat` (they are only ever assigned non-negative values),
`rear` as `Int` because `queue_init` sets it to `-1`.  The C `%` on
`int` truncates toward zero, which is `Int.tmod`; for the dividends
that actually occur (`rear + 1 ≥ 0`, `front + 1 ≥ 0`) it agrees with
mathematical mod.  Uninitialised `malloc` memory is modelled as `none`;
no reachable execution reads a slot before writing it.

Each C function appears twice: `Queue.enqueue`, `Queue.dequeue`, … give
the body executed on a non-null queue (lab.c after the `if (!q)`
check), and the top-level `enqueue`, `dequeue`, … give the full C
function on a nullable `Handle`, including the null check.
-/

/-- C `void *`: `none` is the `NULL` pointer. -/
abbrev Ptr := Option Nat

/-- The `struct queue` of `lab.c`, minus the pthread synchronisation
primitives (mutex and condition variables carry no queue state). -/
structure Queue where
  buffer : List Ptr
  capacity : Nat
  size : Nat
  front : Nat
  rear : Int
  is_shutdown_flag : Bool
  deriving DecidableEq

namespace Queue

/-- `enqueue` (lab.c:81-102), after its wait loop has exited: if the
queue is shut down, return without inserting; otherwise advance `rear`
circularly, store the item there and increment `size`. -/
def enqueue (q : Queue) (data : Ptr) : Queue :=
  if q.is_shutdown_flag then q
  else
    let rear1 : Int := (q.rear + 1).tmod (q.capacity : Int)
    { q with
        rear := rear1
        buffer := q.buffer.set rear1.toNat data
        size := q.size + 1 }

/-- `dequeue` (lab.c:109-131), after its wait loop has exited: if
`size = 0` (only possible after shutdown), return `NULL`; otherwise
remove the item at `front`, advance `front` circularly and decrement
`size`.  Returns the updated state together with the C return value. -/
def dequeue (q : Queue) : Queue × Ptr :=
  if q.size = 0 then (q, none)
  else
    ({ q with
        front := (q.front + 1) % q.capacity
        size := q.size - 1 },
     q.buffer.getD q.front none)

/-- `queue_shutdown` (lab.c:139-145): sets the shutdown flag (the
broadcast wakeups carry no queue state). -/
def queue_shutdown (q : Queue) : Queue :=
  { q with is_shutdown_flag := true }

/-- `is_empty` (lab.c:153-157) on a non-null handle. -/
def is_empty (q : Queue) : Bool :=
  q.size == 0

/-- `is_shutdown` (lab.c:165-169) on a non-null handle. -/
def is_shutdown (q : Queue) : Bool :=
  q.is_shutdown_flag

end Queue

/-- A C `queue_t` handle: `none` is the `NULL` handle. -/
abbrev Handle := Option Queue

/-- `queue_init` (lab.c:24): returns `NULL` (here `none`) when
`capacity <= 0`, otherwise a fresh queue with `size = 0`, `front = 0`,
`rear = -1`, `is_shutdown_flag = false` and `capacity` buffer slots.
(The C `malloc`-failure path also returns `NULL`; allocation is assumed
to succeed in this model.) -/
def queue_init (capacity : Int) : Handle :=
  if capacity ≤ 0 then none
  else some
    { buffer := List.replicate capacity.toNat none
      capacity := capacity.toNat
      size := 0
      front := 0
      rear := -1
      is_shutdown_flag := false }

/-- Full `enqueue` (lab.c:76) including the `if (!q) return;` null
check; the resulting state of the handle. -/
def enqueue : Handle → Ptr → Handle
  | none, _ => none
  | some q, data => some (q.enqueue data)

/-- Full `dequeue` (lab.c:104) including the `if (!q) return NULL;`
null check: resulting state and C return value. -/
def dequeue : Handle → Handle × Ptr
  | none => (none, none)
  | some q => (some (q.dequeue).1, (q.dequeue).2)

/-- Full `queue_shutdown` (lab.c:134) including the null check. -/
def queue_shutdown : Handle → Handle
  | none => none
  | some q => some q.queue_shutdown

/-- Full `is_empty` (lab.c:148): `true` on the `NULL` handle. -/
def is_empty : Handle → Bool
  | none => true
  | some q => q.is_empty

/-- Full `is_shutdown` (lab.c:160): `true` on the `NULL` handle. -/
def is_shutdown : Handle → Bool
  | none => true
  | some q => q.is_shutdown

/-- `queue_destroy` (lab.c:54): no-op on the `NULL` handle; on a live
queue it sets the shutdown flag, wakes all waiters and frees the
memory, after which the handle is dead (`none`). -/
def queue_destroy : Handle → Handle
  | none => none
  | some _ => none

/-- The abstract FIFO content of the queue: the `size` items starting
at `front`, read circularly — oldest first. -/
def contents (q : Queue) : List Ptr :=
  (List.range q.size).map fun i => q.buffer.getD ((q.front + i) % q.capacity) none

/-- The spec-level `tail` index: the slot where the next inserted item
lands, i.e. the value `rear` takes on the next insertion (lab.c:95). -/
def tailIndex (q : Queue) : Nat :=
  ((q.rear + 1).tmod (q.capacity : Int)).toNat

/-- Structural invariant maintained by all operations. -/
def QueueInv (q : Queue) : Prop :=
  0 < q.capacity ∧
  q.buffer.length = q.capacity ∧
  q.size ≤ q.capacity ∧
  q.front < q.capacity ∧
  -1 ≤ q.rear ∧
  q.rear < (q.capacity : Int) ∧
  tailIndex q = (q.front + q.size) % q.capacity

instance (q : Queue) : Decidable (QueueInv q) := by
  unfold QueueInv; infer_instance

/-- One API call on a live queue (queries included: they read state but
do not change it). -/
inductive OpLabel where
  | enq (a : Ptr)
  | deq
  | shutdown
  | isEmpty
  | isShutdown
  deriving DecidableEq

/-- `RunTo q ops q'` : starting from state `q`, the calls in `ops`
complete, in that order, ending in state `q'`.  The guards on `enq` and
`deq` are the exit conditions of the C wait loops (lab.c:84, lab.c:112):
a call whose guard fails stays blocked in `pthread_cond_wait` and does
not complete, so it produces no transition. -/
inductive RunTo : Queue → List OpLabel → Queue → Prop where
  | nil (q : Queue) : RunTo q [] q
  | enq (q : Queue) (a : Ptr) {ops : List OpLabel} {qf : Queue}
      (hg : ¬(q.size = q.capacity ∧ q.is_shutdown_flag = false))
      (hrest : RunTo (q.enqueue a) ops qf) :
      RunTo q (OpLabel.enq a :: ops) qf
  | deq (q : Queue) {ops : List OpLabel} {qf : Queue}
      (hg : ¬(q.size = 0 ∧ q.is_shutdown_flag = false))
      (hrest : RunTo (q.dequeue).1 ops qf) :
      RunTo q (OpLabel.deq :: ops) qf
  | shutdown (q : Queue) {ops : List OpLabel} {qf : Queue}
      (hrest : RunTo q.queue_shutdown ops qf) :
      RunTo q (OpLabel.shutdown :: ops) qf
  | isEmpty (q : Queue) {ops : List OpLabel} {qf : Queue}
      (hrest : RunTo q ops qf) :
      RunTo q (OpLabel.isEmpty :: ops) qf
  | isShutdown (q : Queue) {ops : List OpLabel} {qf : Queue}
      (hrest : RunTo q ops qf) :
      RunTo q (OpLabel.isShutdown :: ops) qf

/-- A state is reachable if some sequence of completed calls produces it
from a freshly constructed queue. -/
def Reachable (q : Queue) : Prop :=
  ∃ (c : Int) (q0 : Queue) (ops : List OpLabel),
    queue_init c = some q0 ∧ RunTo q0 ops q

/-- Whether a list of calls contains a `queue_shutdown` call. -/
def hasShutdown (ops : List OpLabel) : Bool :=
  ops.any fun o => match o with
    | OpLabel.shutdown => true
    | _ => false

/-- Enqueue the items of a list in order (left to right). -/
def enqueueAll (q : Queue) (items : List Ptr) : Queue :=
  items.foldl Queue.enqueue q

/-- Perform `n` dequeues, collecting the returned values in call
order. -/
def dequeueAll (q : Queue) : Nat → Queue × List Ptr
  | 0 => (q, [])
  | n + 1 =>
      let r := q.dequeue
      let rest := dequeueAll r.1 n
      (rest.1, r.2 :: rest.2)

/-! ## Basic lemmas -/

@[simp]
theorem Queue.enqueue_capacity (q : Queue) (a : Ptr) :
    (q.enqueue a).capacity = q.capacity := by
  unfold Queue.enqueue; split <;> rfl

@[simp]
theorem Queue.enqueue_flag (q : Queue) (a : Ptr) :
    (q.enqueue a).is_shutdown_flag = q.is_shutdown_flag := by
  unfold Queue.enqueue; split <;> rfl

@[simp]
theorem Queue.dequeue_capacity (q : Queue) :
    (q.dequeue).1.capacity = q.capacity := by
  unfold Queue.dequeue; split <;> rfl

@[simp]
theorem Queue.dequeue_flag (q : Queue) :
    (q.dequeue).1.is_shutdown_flag = q.is_shutdown_flag := by
  unfold Queue.dequeue; split <;> rfl

@[simp]
theorem Queue.dequeue_buffer (q : Queue) :
    (q.dequeue).1.buffer = q.buffer := by
  unfold Queue.dequeue; split <;> rfl

theorem Queue.dequeue_of_size_eq_zero {q : Queue} (h : q.size = 0) :
    q.dequeue = (q, none) := by
  unfold Queue.dequeue; simp [h]

theorem dequeueAll_of_size_eq_zero {q : Queue} (h : q.size = 0) :
    ∀ n : Nat, dequeueAll q n = (q, List.replicate n none) := by
  intro n
  induction n with
  | zero => rfl
  | succ n ih =>
      unfold dequeueAll
      rw [Queue.dequeue_of_size_eq_zero h]
      simp [ih, List.replicate_succ]

/-! ## Claims -/

/-- C4.  Enqueue on a shut-down queue is a silent drop that leaves the
queue unchanged: when the shutdown flag is set, `enqueue` returns
without inserting and every field (`size`, `front`, `rear`, `capacity`,
`buffer`) is exactly as before the call. -/
theorem enqueue_on_shutdown_noop (q : Queue) (a : Ptr)
    (h : q.is_shutdown_flag = true) : q.enqueue a = q := by
  unfold Queue.enqueue
  simp [h]

theorem enqueue_on_shutdown_noop_witness :
    (Queue.mk [some 1, none] 2 1 0 0 true).enqueue (some 9) =
      Queue.mk [some 1, none] 2 1 0 0 true :=
  enqueue_on_shutdown_noop (Queue.mk [some 1, none] 2 1 0 0 true) (some 9) rfl

/-- C5.  Construction validation and initial state: `queue_init` fails
(returns the null handle) for any capacity ≤ 0, and for any capacity
> 0 succeeds with a queue whose `size` is 0 and whose shutdown flag is
false. -/
theorem queue_init_spec (c : Int) :
    (c ≤ 0 → queue_init c = none) ∧
    (0 < c → ∃ q : Queue,
      queue_init c = some q ∧ q.size = 0 ∧ q.is_shutdown_flag = false) := by
  constructor
  · intro h
    simp [queue_init, h]
  · intro h
    unfold queue_init
    rw [if_neg (not_le.mpr h)]
    exact ⟨_, rfl, rfl, rfl⟩

theorem queue_init_spec_witness :
    queue_init (-5) = none ∧ queue_init 0 = none ∧
    ∃ q : Queue, queue_init 1 = some q ∧ q.size = 0 ∧
      q.is_shutdown_flag = false :=
  ⟨(queue_init_spec (-5)).1 (by decide),
   (queue_init_spec 0).1 (by decide),
   (queue_init_spec 1).2 (by decide)⟩

/-- C8.  Shutdown frame and idempotence: `queue_shutdown` changes only
the shutdown flag — capacity, size, front, rear, the stored buffer and
hence the abstract contents are untouched — and a second
`queue_shutdown` leaves the state exactly as after the first. -/
theorem shutdown_frame_idempotent (q : Queue) :
    q.queue_shutdown.capacity = q.capacity ∧
    q.queue_shutdown.size = q.size ∧
    q.queue_shutdown.front = q.front ∧
    q.queue_shutdown.rear = q.rear ∧
    q.queue_shutdown.buffer = q.buffer ∧
    contents q.queue_shutdown = contents q ∧
    q.queue_shutdown.is_shutdown_flag = true ∧
    q.queue_shutdown.queue_shutdown = q.queue_shutdown :=
  ⟨rfl, rfl, rfl, rfl, rfl, rfl, rfl, rfl⟩

/-- C9.  Null-handle defensive defaults: on the `NULL` handle,
`is_empty` returns true, `is_shutdown` returns true, `dequeue` returns
the "no item" result (`NULL`) with no state change, and `enqueue`,
`queue_shutdown` and `queue_destroy` return immediately with no
effect. -/
theorem null_handle_defaults :
    is_empty none = true ∧
    is_shutdown none = true ∧
    dequeue none = (none, none) ∧
    (∀ a : Ptr, enqueue none a = none) ∧
    queue_shutdown none = none ∧
    queue_destroy none = none :=
  ⟨rfl, rfl, rfl, fun _ => rfl, rfl, rfl⟩

/-- C10.  The "no item" result of `dequeue` is the C `NULL` pointer,
the very value a caller may enqueue as an item: a non-shut-down queue
holding exactly one enqueued `NULL` item dequeues to `NULL`,
indistinguishable from the result on an empty shut-down queue and from
the result on the `NULL` handle. -/
theorem null_item_indistinguishable :
    queue_init 1 = some (Queue.mk [none] 1 0 0 (-1) false) ∧
    ((Queue.mk [none] 1 0 0 (-1) false).enqueue none).is_shutdown_flag
      = false ∧
    ((Queue.mk [none] 1 0 0 (-1) false).enqueue none).size = 1 ∧
    ((Queue.mk [none] 1 0 0 (-1) false).enqueue none).dequeue.2 = none ∧
    ((Queue.mk [none] 1 0 0 (-1) false).queue_shutdown).dequeue.2 = none ∧
    (dequeue (none : Handle)).2 = none := by
  decide

/-- C3.  Shutdown drains then signals completion: for a capacity-3
queue holding exactly `[a, b]` in insertion order, after
`queue_shutdown` the first `dequeue` returns `a`, the second `b`, the
third the "no item" result `NULL`, and every later `dequeue` returns
`NULL` as well. -/
theorem shutdown_drains_then_empty (a b : Ptr) :
    ∃ q0 : Queue, queue_init 3 = some q0 ∧
      (((q0.enqueue a).enqueue b).queue_shutdown).dequeue.2 = a ∧
      ((((q0.enqueue a).enqueue b).queue_shutdown).dequeue.1).dequeue.2
        = b ∧
      (((((q0.enqueue a).enqueue b).queue_shutdown).dequeue.1).dequeue.1).dequeue.2
        = none ∧
      ∀ n : Nat,
        (dequeueAll
          (((((q0.enqueue a).enqueue b).queue_shutdown).dequeue.1).dequeue.1)
          n).2 = List.replicate n none := by
  refine ⟨_, rfl, rfl, rfl, rfl, ?_⟩
  intro n
  rw [dequeueAll_of_size_eq_zero rfl]

/-! ## Characterisations of the operations under the invariant -/

theorem Queue.enqueue_eq_of_shutdown {q : Queue} (h : q.is_shutdown_flag = true)
    (a : Ptr) : q.enqueue a = q := by
  unfold Queue.enqueue
  rw [if_pos h]

/-- On a live (non-shut-down) queue the circular `rear` update lands on
the slot `(front + size) % capacity`: the C `rear` arithmetic, read
through the invariant. -/
theorem Queue.enqueue_eq_of_not_shutdown {q : Queue}
    (hflag : q.is_shutdown_flag = false) (hrear : -1 ≤ q.rear)
    (htail : tailIndex q = (q.front + q.size) % q.capacity) (a : Ptr) :
    q.enqueue a =
      { q with
          rear := ((q.front + q.size) % q.capacity : Nat)
          buffer := q.buffer.set ((q.front + q.size) % q.capacity) a
          size := q.size + 1 } := by
  unfold Queue.enqueue
  rw [if_neg (by simp [hflag])]
  have hnn : (0 : Int) ≤ (q.rear + 1).tmod (q.capacity : Int) :=
    Int.tmod_nonneg _ (by omega)
  have htoNat : ((q.rear + 1).tmod (q.capacity : Int)).toNat =
      (q.front + q.size) % q.capacity := htail
  have hmod : (q.rear + 1).tmod (q.capacity : Int) =
      (((q.front + q.size) % q.capacity : Nat) : Int) := by
    rw [← htoNat, Int.toNat_of_nonneg hnn]
  simp only [hmod, Int.toNat_ofNat]

theorem Queue.enqueue_size_of_not_shutdown {q : Queue}
    (hflag : q.is_shutdown_flag = false) (a : Ptr) :
    (q.enqueue a).size = q.size + 1 := by
  unfold Queue.enqueue
  rw [if_neg (by simp [hflag])]

theorem Queue.dequeue_eq_of_size_pos {q : Queue} (h : q.size ≠ 0) :
    q.dequeue =
      ({ q with
          front := (q.front + 1) % q.capacity
          size := q.size - 1 },
       q.buffer.getD q.front none) := by
  unfold Queue.dequeue
  rw [if_neg h]

theorem Queue.dequeue_size (q : Queue) :
    (q.dequeue).1.size = q.size - 1 := by
  unfold Queue.dequeue
  split
  · next h => simp [h]
  · rfl

/-- Truncated `Int` mod agrees with `Nat` mod on casts of naturals. -/
theorem tmod_toNat (m n : Nat) :
    (((m : Int)).tmod ((n : Int))).toNat = m % n := rfl

/-! ## The invariant is established by construction and preserved -/

theorem queueInv_init {c : Int} {q : Queue} (h : queue_init c = some q) :
    QueueInv q := by
  unfold queue_init at h
  split at h
  · exact absurd h (by simp)
  · next hc =>
      injection h with h'
      subst h'
      have hc' : 0 < c := lt_of_not_le hc
      have hcap : 0 < c.toNat := by omega
      unfold QueueInv
      dsimp only
      refine ⟨hcap, by simp, by simp, hcap, by omega, by omega, ?_⟩
      simp [tailIndex]

theorem queueInv_enqueue {q : Queue} (h : QueueInv q) (a : Ptr)
    (hg : ¬(q.size = q.capacity ∧ q.is_shutdown_flag = false)) :
    QueueInv (q.enqueue a) := by
  obtain ⟨hcap, hbuf, hsize, hfront, hrl, hru, htail⟩ := h
  by_cases hflag : q.is_shutdown_flag = true
  · rw [Queue.enqueue_eq_of_shutdown hflag a]
    exact ⟨hcap, hbuf, hsize, hfront, hrl, hru, htail⟩
  · have hflag' : q.is_shutdown_flag = false := by
      revert hflag; cases q.is_shutdown_flag <;> simp
    have hlt : q.size < q.capacity :=
      lt_of_le_of_ne hsize (fun he => hg ⟨he, hflag'⟩)
    rw [Queue.enqueue_eq_of_not_shutdown hflag' hrl htail a]
    have hmlt : (q.front + q.size) % q.capacity < q.capacity :=
      Nat.mod_lt _ hcap
    unfold QueueInv tailIndex
    dsimp only
    refine ⟨hcap, ?_, by omega, hfront, by omega, by omega, ?_⟩
    · rw [List.length_set]
      exact hbuf
    · have hcast : ((((q.front + q.size) % q.capacity : Nat) : Int) + 1) =
          (((q.front + q.size) % q.capacity + 1 : Nat) : Int) := by
        push_cast; ring
      rw [hcast, tmod_toNat, Nat.mod_add_mod, Nat.add_assoc]

theorem queueInv_dequeue {q : Queue} (h : QueueInv q) :
    QueueInv (q.dequeue).1 := by
  by_cases hs : q.size = 0
  · rw [Queue.dequeue_of_size_eq_zero hs]
    exact h
  · obtain ⟨hcap, hbuf, hsize, hfront, hrl, hru, htail⟩ := h
    rw [Queue.dequeue_eq_of_size_pos hs]
    unfold QueueInv
    dsimp only
    refine ⟨hcap, hbuf, by omega, Nat.mod_lt _ hcap, hrl, hru, ?_⟩
    have hfix : tailIndex
        { q with front := (q.front + 1) % q.capacity, size := q.size - 1 } =
        tailIndex q := rfl
    rw [hfix, htail, Nat.mod_add_mod]
    congr 1
    omega

theorem queueInv_shutdown {q : Queue} (h : QueueInv q) :
    QueueInv q.queue_shutdown := h

theorem queueInv_runTo {q qf : Queue} {ops : List OpLabel}
    (hr : RunTo q ops qf) (h : QueueInv q) : QueueInv qf := by
  induction hr with
  | nil => exact h
  | enq q a hg _ ih => exact ih (queueInv_enqueue h a hg)
  | deq q hg _ ih => exact ih (queueInv_dequeue h)
  | shutdown q _ ih => exact ih (queueInv_shutdown h)
  | isEmpty q _ ih => exact ih h
  | isShutdown q _ ih => exact ih h

theorem queueInv_reachable {q : Queue} (h : Reachable q) : QueueInv q := by
  obtain ⟨c, q0, ops, hinit, hrun⟩ := h
  exact queueInv_runTo hrun (queueInv_init hinit)

/-! ## Evolution of the shutdown flag along a run -/

theorem queue_init_flag {c : Int} {q : Queue} (h : queue_init c = some q) :
    q.is_shutdown_flag = false := by
  unfold queue_init at h
  split at h
  · exact absurd h (by simp)
  · injection h with h'
    subst h'
    rfl

theorem flag_runTo {q qf : Queue} {ops : List OpLabel}
    (hr : RunTo q ops qf) :
    qf.is_shutdown_flag = (q.is_shutdown_flag || hasShutdown ops) := by
  induction hr with
  | nil => simp [hasShutdown]
  | enq q a hg _ ih => simp [ih, hasShutdown, Queue.queue_shutdown]
  | deq q hg _ ih => simp [ih, hasShutdown]
  | shutdown q _ ih => simp [ih, hasShutdown, Queue.queue_shutdown]
  | isEmpty q _ ih => simp [ih, hasShutdown]
  | isShutdown q _ ih => simp [ih, hasShutdown]

/-- C2.  Capacity bound invariant: in every state reachable from
construction by completed `enqueue`, `dequeue`, `queue_shutdown`,
`is_empty` and `is_shutdown` calls, `0 ≤ size ≤ capacity`.  An
`enqueue` against a full, non-shut-down queue has a false `RunTo`
guard — it blocks in the wait loop rather than inserting — so no
reachable state exceeds the capacity. -/
theorem size_within_capacity {q : Queue} (h : Reachable q) :
    0 ≤ q.size ∧ q.size ≤ q.capacity :=
  ⟨Nat.zero_le _, (queueInv_reachable h).2.2.1⟩

theorem size_within_capacity_witness :
    0 ≤ ((Queue.mk [none, none] 2 0 0 (-1) false).enqueue (some 5)).size ∧
    ((Queue.mk [none, none] 2 0 0 (-1) false).enqueue (some 5)).size ≤
      ((Queue.mk [none, none] 2 0 0 (-1) false).enqueue (some 5)).capacity :=
  size_within_capacity
    ⟨2, Queue.mk [none, none] 2 0 0 (-1) false, [OpLabel.enq (some 5)], rfl,
      RunTo.enq _ (some 5) (by decide)
        (RunTo.nil ((Queue.mk [none, none] 2 0 0 (-1) false).enqueue (some 5)))⟩

/-- C6.  Monotonic shutdown: starting from a freshly constructed queue,
after any sequence of completed calls the value reported by
`is_shutdown` is exactly "some `queue_shutdown` call has occurred in
the sequence": it is `false` on every state before the first
`queue_shutdown` call and `true` on every state after it, so no
operation ever resets the flag. -/
theorem shutdown_monotonic {c : Int} {q0 qf : Queue} {ops : List OpLabel}
    (hinit : queue_init c = some q0) (hrun : RunTo q0 ops qf) :
    qf.is_shutdown = hasShutdown ops := by
  unfold Queue.is_shutdown
  rw [flag_runTo hrun, queue_init_flag hinit, Bool.false_or]

theorem shutdown_monotonic_witness :
    ((Queue.mk [none] 1 0 0 (-1) false).queue_shutdown).is_shutdown =
      hasShutdown [OpLabel.shutdown] :=
  @shutdown_monotonic 1 (Queue.mk [none] 1 0 0 (-1) false)
    ((Queue.mk [none] 1 0 0 (-1) false).queue_shutdown) [OpLabel.shutdown] rfl
    (RunTo.shutdown _ (RunTo.nil (Queue.mk [none] 1 0 0 (-1) false).queue_shutdown))

/-- C7.  Index invariant: in every reachable state, `front` (the head
index) and the spec-level tail index `tailIndex` (the slot where the
next inserted item lands, i.e. `(rear + 1) mod capacity`) lie in
`[0, capacity)`, and whenever `size > 0` — indeed always —
`tailIndex = (front + size) mod capacity`. -/
theorem index_invariant {q : Queue} (h : Reachable q) :
    q.front < q.capacity ∧ tailIndex q < q.capacity ∧
    (0 < q.size → tailIndex q = (q.front + q.size) % q.capacity) := by
  obtain ⟨hcap, _, _, hfront, _, _, htail⟩ := queueInv_reachable h
  exact ⟨hfront, by rw [htail]; exact Nat.mod_lt _ hcap, fun _ => htail⟩

theorem index_invariant_witness :
    ((Queue.mk [none, none, none] 3 0 0 (-1) false).enqueue none).front <
      ((Queue.mk [none, none, none] 3 0 0 (-1) false).enqueue none).capacity ∧
    tailIndex ((Queue.mk [none, none, none] 3 0 0 (-1) false).enqueue none) <
      ((Queue.mk [none, none, none] 3 0 0 (-1) false).enqueue none).capacity ∧
    (0 < ((Queue.mk [none, none, none] 3 0 0 (-1) false).enqueue none).size →
      tailIndex ((Queue.mk [none, none, none] 3 0 0 (-1) false).enqueue none) =
        (((Queue.mk [none, none, none] 3 0 0 (-1) false).enqueue none).front +
          ((Queue.mk [none, none, none] 3 0 0 (-1) false).enqueue none).size) %
          ((Queue.mk [none, none, none] 3 0 0 (-1) false).enqueue none).capacity) :=
  index_invariant
    ⟨3, Queue.mk [none, none, none] 3 0 0 (-1) false, [OpLabel.enq none], rfl,
      RunTo.enq _ none (by decide)
        (RunTo.nil ((Queue.mk [none, none, none] 3 0 0 (-1) false).enqueue none))⟩

/-! ## FIFO order -/

theorem contents_of_size_zero {q : Queue} (h : q.size = 0) :
    contents q = [] := by
  unfold contents
  rw [h]
  rfl

/-- Two circular-buffer offsets below the capacity that land on the
same slot are equal. -/
theorem mod_shift_inj {cap fr i j : Nat} (hi : i < cap) (hj : j < cap)
    (h : (fr + i) % cap = (fr + j) % cap) : i = j := by
  have h' : i % cap = j % cap := Nat.ModEq.add_left_cancel' fr h
  rwa [Nat.mod_eq_of_lt hi, Nat.mod_eq_of_lt hj] at h'

/-- A completed insertion on a live queue appends the item to the
abstract contents: the write at `rear` touches none of the `size`
occupied slots. -/
theorem contents_enqueue {q : Queue} (h : QueueInv q)
    (hflag : q.is_shutdown_flag = false) (hlt : q.size < q.capacity)
    (a : Ptr) : contents (q.enqueue a) = contents q ++ [a] := by
  obtain ⟨hcap, hbuf, hsize, hfront, hrl, hru, htail⟩ := h
  rw [Queue.enqueue_eq_of_not_shutdown hflag hrl htail a]
  unfold contents
  dsimp only
  rw [List.range_succ, List.map_append]
  congr 1
  · apply List.map_congr_left
    intro i hi
    have hi' : i < q.size := List.mem_range.mp hi
    have hne : (q.front + q.size) % q.capacity ≠
        (q.front + i) % q.capacity := by
      intro he
      have : q.size = i := mod_shift_inj hlt (lt_trans hi' hlt) he
      omega
    rw [List.getD_eq_getElem?_getD, List.getD_eq_getElem?_getD,
      List.getElem?_set_ne hne]
  · have hw : (q.front + q.size) % q.capacity < q.buffer.length := by
      rw [hbuf]
      exact Nat.mod_lt _ hcap
    simp only [List.map_cons, List.map_nil]
    rw [List.getD_eq_getElem?_getD, List.getElem?_set_self hw]
    rfl

/-- A completed removal on a non-empty queue takes the head of the
abstract contents and leaves the tail. -/
theorem contents_dequeue {q : Queue} (h : QueueInv q) (hs : q.size ≠ 0) :
    contents q = (q.dequeue).2 :: contents (q.dequeue).1 := by
  obtain ⟨hcap, hbuf, hsize, hfront, _, _, _⟩ := h
  rw [Queue.dequeue_eq_of_size_pos hs]
  dsimp only
  unfold contents
  dsimp only
  obtain ⟨n, hn⟩ : ∃ n, q.size = n + 1 := ⟨q.size - 1, by omega⟩
  rw [hn]
  simp only [Nat.add_sub_cancel]
  rw [List.range_succ_eq_map, List.map_cons, List.map_map]
  congr 1
  · rw [Nat.add_zero, Nat.mod_eq_of_lt hfront]
  · apply List.map_congr_left
    intro i hi
    simp only [Function.comp]
    rw [Nat.mod_add_mod]
    congr 1
    congr 1
    omega

/-- Draining a queue with exactly `size` dequeues returns the abstract
contents, oldest first. -/
theorem dequeueAll_eq_contents :
    ∀ (n : Nat) (q : Queue), QueueInv q → q.size = n →
      (dequeueAll q n).2 = contents q := by
  intro n
  induction n with
  | zero =>
      intro q _ hsz
      rw [contents_of_size_zero hsz]
      rfl
  | succ n ih =>
      intro q h hsz
      have hs : q.size ≠ 0 := by omega
      have hsz1 : (q.dequeue).1.size = n := by
        rw [Queue.dequeue_size, hsz]
        omega
      unfold dequeueAll
      dsimp only
      rw [ih (q.dequeue).1 (queueInv_dequeue h) hsz1]
      exact (contents_dequeue h hs).symm

/-- Enqueueing a list of items on a live queue with room for all of
them appends them, in order, to the abstract contents, preserving the
invariant and growing `size` accordingly. -/
theorem enqueueAll_spec :
    ∀ (items : List Ptr) (q : Queue), QueueInv q →
      q.is_shutdown_flag = false →
      q.size + items.length ≤ q.capacity →
      contents (enqueueAll q items) = contents q ++ items ∧
      QueueInv (enqueueAll q items) ∧
      (enqueueAll q items).size = q.size + items.length := by
  intro items
  induction items with
  | nil =>
      intro q h _ _
      exact ⟨by simp [enqueueAll], h, by simp [enqueueAll]⟩
  | cons a items ih =>
      intro q h hflag hle
      have hlen : q.size + (items.length + 1) ≤ q.capacity := by
        simpa using hle
      have hlt : q.size < q.capacity := by omega
      have h1 : QueueInv (q.enqueue a) :=
        queueInv_enqueue h a (by rintro ⟨he, _⟩; omega)
      have hflag1 : (q.enqueue a).is_shutdown_flag = false := by
        rw [Queue.enqueue_flag]
        exact hflag
      have hsz1 : (q.enqueue a).size = q.size + 1 :=
        Queue.enqueue_size_of_not_shutdown hflag a
      have hle1 : (q.enqueue a).size + items.length ≤
          (q.enqueue a).capacity := by
        rw [hsz1, Queue.enqueue_capacity]
        omega
      obtain ⟨hc, hi, hs⟩ := ih (q.enqueue a) h1 hflag1 hle1
      have heq : enqueueAll q (a :: items) = enqueueAll (q.enqueue a) items :=
        rfl
      refine ⟨?_, heq ▸ hi, ?_⟩
      · rw [heq, hc, contents_enqueue h hflag hlt a]
        simp
      · rw [heq, hs, hsz1]
        simp [List.length_cons]
        omega

/-- C1.  FIFO order: starting from an empty, non-shut-down queue with
room for all of them, enqueueing `items` one by one (each insertion
performed, since the queue is never full nor shut down) and then
dequeueing the same number of times returns exactly `items` — same
order, no reordering, no duplication, no loss. -/
theorem fifo_order {q : Queue} (items : List Ptr) (h : QueueInv q)
    (hflag : q.is_shutdown_flag = false) (hempty : q.size = 0)
    (hcap : items.length ≤ q.capacity) :
    (dequeueAll (enqueueAll q items) items.length).2 = items := by
  obtain ⟨hc, hi, hs⟩ := enqueueAll_spec items q h hflag (by omega)
  have hsz : (enqueueAll q items).size = items.length := by
    rw [hs, hempty]
    omega
  rw [dequeueAll_eq_contents items.length (enqueueAll q items) hi hsz, hc,
    contents_of_size_zero hempty]
  rfl

theorem fifo_order_witness :
    (dequeueAll
      (enqueueAll (Queue.mk [none, none, none] 3 0 0 (-1) false)
        [some 1, some 2, none]) 3).2 = [some 1, some 2, none] :=
  fifo_order [some 1, some 2, none] (by decide) rfl rfl (by decide)
